import Mathlib

/-!
Verification of the ExecOps Proposal Lifecycle Engine against its
specification.  The definitions below are a shallow embedding of the
repository's Next.js API route handlers and of the Prisma/Postgres schema
(migration `part_004`):

* `Proposal`, `Execution`, `Event`, `AuditEntry` mirror the rows of the
  `ActionProposal`, `Execution`, `Event` and `AuditLog` tables (all text
  columns are `String`, timestamps are `Nat`, nullable columns `Option`).
* `approvePOST` embeds `app/api/actions/[id]/route.ts` POST (approval),
  `rejectPOST` embeds `app/api/actions/[id]/reject/route.ts` POST,
  `createPOST` embeds `app/api/actions/route.ts` POST,
  `actionsGET` embeds `app/api/actions/route.ts` GET (listing),
  `eventsPOST` embeds the event-ingestion POST handler,
  `canvasMatch`/`canvasPOST` embed the Canvas analytics route.
* the execution adapter (`/execute_action` in the Python AI service) is not
  part of the available sources; `specExecuteAction` models it from the
  specification (§4.5).
-/

namespace ExecOps

/-- Row of the `ActionProposal` table (`part_004` lines 16-34). -/
structure Proposal where
  pid : String
  status : String
  urgency : String
  vertical : String
  action_type : String
  payload : String
  created_at : Nat
  approved_at : Option Nat := none
  executed_at : Option Nat := none
  approver_id : Option String := none
  rejection_reason : Option String := none
deriving DecidableEq, Repr

/-- Row of the `Execution` table (`part_004` lines 79-91). -/
structure Execution where
  proposal_id : String
  status : String
  idempotency_key : Option String
  started_at : Option Nat
  finished_at : Option Nat
deriving DecidableEq, Repr

/-- Row of the `Event` table (`part_004` lines 2-13). -/
structure Event where
  source : String
  source_type : Option String := none
  occurred_at : String
  external_id : Option String := none
  payload : String
  processed : Bool := false
deriving DecidableEq, Repr

/-- Row of the `AuditLog` table (`part_004` lines 94-103). -/
structure AuditEntry where
  action : String
  entity_type : String
  entity_id : String
  created_at : Nat
deriving DecidableEq, Repr

/-- The persistent store (the four tables the handlers read and write). -/
structure Sys where
  proposals : List Proposal := []
  executions : List Execution := []
  events : List Event := []
  audit : List AuditEntry := []
deriving DecidableEq, Repr

def initSys : Sys := {}

/-- HTTP outcome of a handler. -/
inductive Resp where
  | ok
  | created
  | notFound
  | invalidState
  | badRequest
  | serverError
deriving DecidableEq, Repr

def statusCode : Resp → Nat
  | .ok => 200
  | .created => 201
  | .notFound => 404
  | .invalidState => 400
  | .badRequest => 400
  | .serverError => 500

/-- `prisma.actionProposal.findUnique({ where: { id } })`. -/
def findP (ps : List Proposal) (id : String) : Option Proposal :=
  ps.find? (fun p => p.pid == id)

/-- `prisma.actionProposal.update({ where: { id }, data })`: rewrite the
row whose primary key matches, leave every other row unchanged. -/
def updAt (id : String) (g : Proposal → Proposal) (l : List Proposal) :
    List Proposal :=
  l.map (fun q => if q.pid == id then g q else q)

/-- JavaScript `x || d` for an optional string (`null`/`undefined`/`""` are
falsy). -/
def orFalsy (o : Option String) (d : String) : String :=
  match o with
  | none => d
  | some s => if s == "" then d else s

/-- JavaScript falsiness test for an optional string field of a JSON body. -/
def isFalsy : Option String → Bool
  | none => true
  | some s => s == ""

/-- ASCII lower-casing of one character (JavaScript `toLowerCase` on the
ASCII identifiers this code handles). -/
def lowerChar (c : Char) : Char :=
  if 65 ≤ c.val && c.val ≤ 90 then Char.ofNat (c.toNat + 32) else c

/-- JavaScript `s.toLowerCase()`. -/
def lowerStr (s : String) : String := ⟨s.data.map lowerChar⟩

def isWs (c : Char) : Bool := c == ' ' || c == '\t' || c == '\n' || c == '\r'

/-- JavaScript `s.trim()`. -/
def trimStr (s : String) : String :=
  ⟨((s.data.dropWhile isWs).reverse.dropWhile isWs).reverse⟩

/-- The `data:` object of the approval `prisma.actionProposal.update`. -/
def approveUpd (ap : Option String) (now : Nat) (q : Proposal) : Proposal :=
  { q with
      status := "approved"
      approved_at := some now
      approver_id := some (orFalsy ap "founder") }

/-- The `data:` object of the rejection `prisma.actionProposal.update`. -/
def rejectUpd (r ap : Option String) (q : Proposal) : Proposal :=
  { q with
      status := "rejected"
      rejection_reason := some (orFalsy r "No reason provided")
      approver_id := some (orFalsy ap "founder") }

/-- The proposal update performed on successful execution (spec §4.3:
`approved` → execution succeeds → `executed`). -/
def execUpd (now : Nat) (q : Proposal) : Proposal :=
  { q with status := "executed", executed_at := some now }

/-- Outcome of the approval handler; `execCalled` records whether the
handler fired the `fetch` to the AI service `/execute_action` endpoint. -/
structure ApproveResult where
  resp : Resp
  db : Sys
  execCalled : Bool
deriving DecidableEq, Repr

/-- Embedding of `POST /api/actions/[id]/approve`
(`app/api/actions/[id]/route.ts` lines 44-108, identical in `part_006`):
look up the proposal, reject the call with 404 / 400 unless the current
status is `pending` or `pending_approval`, otherwise set
`status := "approved"`, `approved_at := now`, `approver_id`, and afterwards
call the execution service when the action type is auto-executable
(`email` or `webhook`). -/
def approvePOST (db : Sys) (id : String) (approver_id : Option String)
    (now : Nat) : ApproveResult :=
  match findP db.proposals id with
  | none => ⟨.notFound, db, false⟩
  | some proposal =>
    if proposal.status != "pending" && proposal.status != "pending_approval" then
      ⟨.invalidState, db, false⟩
    else
      let updated := updAt id (approveUpd approver_id now) db.proposals
      let execCalled :=
        proposal.action_type == "email" || proposal.action_type == "webhook"
      ⟨.ok, { db with proposals := updated }, execCalled⟩

/-- Outcome of the reject handler. -/
structure RejectResult where
  resp : Resp
  db : Sys
deriving DecidableEq, Repr

/-- Embedding of `POST /api/actions/[id]/reject`
(`app/api/actions/[id]/reject/route.ts` lines 11-57): same guard as the
approval handler; on success set `status := "rejected"` and store the
rejection reason (defaulting to `"No reason provided"`). -/
def rejectPOST (db : Sys) (id : String) (rejection_reason : Option String)
    (approver_id : Option String) : RejectResult :=
  match findP db.proposals id with
  | none => ⟨.notFound, db⟩
  | some proposal =>
    if proposal.status != "pending" && proposal.status != "pending_approval" then
      ⟨.invalidState, db⟩
    else
      let updated := updAt id (rejectUpd rejection_reason approver_id) db.proposals
      ⟨.ok, { db with proposals := updated }⟩

/-- Outcome of proposal creation. -/
structure CreateResult where
  resp : Resp
  db : Sys
deriving DecidableEq, Repr

/-- Embedding of `POST /api/actions` (`app/api/actions/route.ts` lines
57-110): persists a new proposal in status `"pending"` with both
timestamps unset.  The AI-service call that fills in the descriptive
fields is modelled by passing those fields as inputs; the primary-key
constraint of the `id` column makes an insert with an existing id fail
(caught and returned as a 500, leaving the store unchanged). -/
def createPOST (db : Sys) (pid urgency vertical action_type payload : String)
    (now : Nat) : CreateResult :=
  match findP db.proposals pid with
  | some _ => ⟨.serverError, db⟩
  | none =>
    let p : Proposal :=
      { pid := pid, status := "pending", urgency := urgency,
        vertical := vertical, action_type := action_type,
        payload := payload, created_at := now }
    ⟨.created, { db with proposals := db.proposals ++ [p] }⟩

/-- Outcome of event ingestion. -/
structure IngestResult where
  resp : Resp
  db : Sys
deriving DecidableEq, Repr

/-- Embedding of the event-ingestion POST handler
(`app/api/actions/[id]/route.ts` lines 202-240): reject with 400 when
`source`, `occurred_at` or `payload` is falsy, otherwise lower-case the
source and `prisma.event.create` the row unconditionally (the schema has
no uniqueness constraint on `(source, external_id)`). -/
def eventsPOST (db : Sys) (source occurred_at external_id payload : Option String) :
    IngestResult :=
  if isFalsy source || isFalsy occurred_at || isFalsy payload then
    ⟨.badRequest, db⟩
  else
    let e : Event :=
      { source := lowerStr (source.getD "")
        occurred_at := occurred_at.getD ""
        external_id := external_id
        payload := payload.getD "" }
    ⟨.ok, { db with events := db.events ++ [e] }⟩

/-- Lexicographic order on strings by code point, as Postgres compares the
`TEXT` column `urgency`. -/
def charListLt : List Char → List Char → Bool
  | _, [] => false
  | [], _ :: _ => true
  | a :: as, b :: bs =>
    if a.val < b.val then true
    else if b.val < a.val then false
    else charListLt as bs

def strLt (a b : String) : Bool := charListLt a.data b.data

/-- Comparator realising Prisma
`orderBy: [{ urgency: "desc" }, { created_at: "desc" }]` over the `TEXT`
column: `a` sorts before `b` iff `a.urgency` is lexicographically greater,
with ties broken by more recent `created_at`. -/
def propBefore (a b : Proposal) : Bool :=
  if strLt b.urgency a.urgency then true
  else if strLt a.urgency b.urgency then false
  else decide (b.created_at ≤ a.created_at)

def insertBy {α : Type} (r : α → α → Bool) (x : α) : List α → List α
  | [] => [x]
  | y :: ys => if r x y then x :: y :: ys else y :: insertBy r x ys

def sortByRel {α : Type} (r : α → α → Bool) : List α → List α
  | [] => []
  | x :: xs => insertBy r x (sortByRel r xs)

def matchesFilter (statusF verticalF : Option String) (p : Proposal) : Bool :=
  (match statusF with | none => true | some s => p.status == s) &&
  (match verticalF with | none => true | some v => p.vertical == v)

/-- Embedding of `GET /api/actions` (`app/api/actions/route.ts` lines
18-54): filter by the optional `status` / `vertical` query parameters,
order by `urgency` descending then `created_at` descending, then apply
`skip`/`take`. -/
def actionsGET (db : Sys) (statusF verticalF : Option String)
    (limit offset : Nat) : List Proposal :=
  (((sortByRel propBefore
      (db.proposals.filter (matchesFilter statusF verticalF))).drop offset).take limit)

/-- The keys of the `ANALYTICS_HANDLERS` record of the Canvas route, in
declaration order (`app/api/actions/[id]/route.ts` lines 127-134). -/
def ANALYTICS_KEYS : List String :=
  ["runway", "burn", "failed_payments", "vendors", "revenue", "proposals"]

/-- `needle` occurs at the head of `hay`. -/
def leadsWith : List Char → List Char → Bool
  | [], _ => true
  | _ :: _, [] => false
  | a :: as, b :: bs => a == b && leadsWith as bs

/-- JavaScript `hay.includes(needle)` on the underlying characters. -/
def hasSeq (needle : List Char) : List Char → Bool
  | [] => needle.isEmpty
  | c :: rest => leadsWith needle (c :: rest) || hasSeq needle rest

def strIncludes (s sub : String) : Bool := hasSeq sub.data s.data

/-- JavaScript `key.replace("_", " ")`: replace the first underscore. -/
def replUndAux : List Char → List Char
  | [] => []
  | c :: cs => if c == '_' then ' ' :: cs else c :: replUndAux cs

def replUnd (s : String) : String := ⟨replUndAux s.data⟩

/-- The per-key test of the Canvas handler loop (route line 155). -/
def keyMatches (normalized key : String) : Bool :=
  strIncludes normalized key || strIncludes normalized (replUnd key)

/-- The Canvas matching loop: first key whose test succeeds, defaulting
to `"proposals"` (route lines 153-159). -/
def canvasMatch (normalized : String) : List String → String
  | [] => "proposals"
  | k :: ks => if keyMatches normalized k then k else canvasMatch normalized ks

/-- Embedding of `POST /api/canvas` (`app/api/actions/[id]/route.ts` lines
137-168): a falsy `query` is rejected with 400 before any handler runs
(`none`); otherwise the query is lower-cased, trimmed and matched, and the
selected handler is invoked (`some` of its key). -/
def canvasPOST (query : String) : Option String :=
  if query == "" then none
  else some (canvasMatch (trimStr (lowerStr query)) ANALYTICS_KEYS)

/-- Modelled from the spec: the `/execute_action` endpoint of the AI
service (the Execution Adapter, spec §4.5) is not in the available
sources.  Following the spec's words: it is only callable when
`proposal.status == approved`; it records an `Execution` whose
idempotency key is derived deterministically from the proposal id; on
success the proposal transitions to `executed` (setting `executed_at`),
on failure the proposal remains `approved`; it appends an audit entry for
the execution completion. -/
def specExecuteAction (db : Sys) (pid : String) (success : Bool) (now : Nat) : Sys :=
  match findP db.proposals pid with
  | none => db
  | some p =>
    if p.status != "approved" then db
    else
      let ex : Execution :=
        { proposal_id := pid
          status := if success then "succeeded" else "failed"
          idempotency_key := some ("exec:" ++ pid)
          started_at := some now
          finished_at := some now }
      let audit2 := db.audit ++
        [⟨"execution_completed", "ActionProposal", pid, now⟩]
      if success then
        { db with
            proposals := updAt pid (execUpd now) db.proposals
            executions := db.executions ++ [ex]
            audit := audit2 }
      else
        { db with executions := db.executions ++ [ex], audit := audit2 }

/-- One externally triggered operation of the system, carrying the wall
clock time at which it runs. -/
inductive Op where
  | createP (pid urgency vertical action_type payload : String) (now : Nat)
  | approveP (pid : String) (approver : Option String) (now : Nat)
  | rejectP (pid : String) (reason approver : Option String) (now : Nat)
  | execDone (pid : String) (success : Bool) (now : Nat)
  | ingestE (source occurred_at external_id payload : Option String) (now : Nat)
deriving DecidableEq, Repr

def opTime : Op → Nat
  | .createP _ _ _ _ _ n => n
  | .approveP _ _ n => n
  | .rejectP _ _ _ n => n
  | .execDone _ _ n => n
  | .ingestE _ _ _ _ n => n

def step (db : Sys) : Op → Sys
  | .createP pid u v a pl n => (createPOST db pid u v a pl n).db
  | .approveP pid ap n => (approvePOST db pid ap n).db
  | .rejectP pid r ap _ => (rejectPOST db pid r ap).db
  | .execDone pid s n => specExecuteAction db pid s n
  | .ingestE s o e pl _ => (eventsPOST db s o e pl).db

def run (db : Sys) : List Op → Sys
  | [] => db
  | op :: ops => run (step db op) ops

/-- The operations happen at non-decreasing wall clock times, starting no
earlier than `t`. -/
def timesMono : Nat → List Op → Bool
  | _, [] => true
  | t, op :: ops => decide (t ≤ opTime op) && timesMono (opTime op) ops

/-- Per-proposal part of the lifecycle invariant at clock bound `t`:
`approved_at` never lies in the future, an `approved` proposal carries its
approval timestamp, and `executed_at` is only set on `executed` proposals
and never precedes `approved_at`. -/
def PInv (t : Nat) (p : Proposal) : Prop :=
  (∀ ta, p.approved_at = some ta → ta ≤ t) ∧
  (p.status = "approved" → p.approved_at.isSome = true) ∧
  (∀ te, p.executed_at = some te →
    p.status = "executed" ∧ ∃ ta, p.approved_at = some ta ∧ ta ≤ te)

/-- Store-wide lifecycle invariant: primary keys are unique, every
proposal satisfies `PInv`, and every `Execution` row points to a proposal
that went through approval. -/
def SysInv (t : Nat) (db : Sys) : Prop :=
  (db.proposals.map Proposal.pid).Nodup ∧
  (∀ p ∈ db.proposals, PInv t p) ∧
  (∀ ex ∈ db.executions, ∃ p ∈ db.proposals,
    p.pid = ex.proposal_id ∧ p.approved_at.isSome = true)

def c1ops : List Op :=
  [.createP "p1" "high" "runway" "email" "{}" 0,
   .approveP "p1" (some "founder") 1,
   .execDone "p1" true 2]

def c2p : Proposal :=
  { pid := "p1", status := "approved", urgency := "high", vertical := "runway",
    action_type := "email", payload := "{}", created_at := 0,
    approved_at := some 1 }

def c2db : Sys := { proposals := [c2p] }

def c3p : Proposal :=
  { pid := "p1", status := "pending_approval", urgency := "critical",
    vertical := "runway", action_type := "email", payload := "{}",
    created_at := 0 }

def c3db : Sys := { proposals := [c3p] }

def c6p : Proposal :=
  { pid := "p1", status := "pending_approval", urgency := "high",
    vertical := "release", action_type := "command", payload := "{}",
    created_at := 0 }

def c6db : Sys := { proposals := [c6p] }

def c5crit : Proposal :=
  { pid := "c1", status := "pending_approval", urgency := "critical",
    vertical := "runway", action_type := "email", payload := "{}",
    created_at := 5 }

def c5med : Proposal :=
  { pid := "c2", status := "pending_approval", urgency := "medium",
    vertical := "runway", action_type := "email", payload := "{}",
    created_at := 5 }

/-- The Execution rows recorded for one proposal id. -/
def execsFor (db : Sys) (id : String) : List Execution :=
  db.executions.filter (fun ex => ex.proposal_id == id)

/-- Invariant carried through every later operation: the store has unique
primary keys and holds a proposal with this id in status `rejected`. -/
def RejInv (id : String) (db : Sys) : Prop :=
  (db.proposals.map Proposal.pid).Nodup ∧
  ∃ q ∈ db.proposals, q.pid = id ∧ q.status = "rejected"

def c8p : Proposal :=
  { pid := "p1", status := "pending_approval", urgency := "high",
    vertical := "customer_fire", action_type := "email", payload := "{}",
    created_at := 0 }

def c8db : Sys := { proposals := [c8p] }

def c8ops : List Op := [.approveP "p1" none 5, .execDone "p1" true 6]

/-! ### Lemmas and claim theorems -/

lemma findP_some {l : List Proposal} {id : String} {p : Proposal}
    (h : findP l id = some p) : p ∈ l ∧ p.pid = id := by
  unfold findP at h
  have h2 := List.find?_some h
  exact ⟨List.mem_of_find?_eq_some h, by simpa using h2⟩

lemma findP_eq_none_iff {l : List Proposal} {id : String} :
    findP l id = none ↔ ∀ p ∈ l, p.pid ≠ id := by
  simp [findP, List.find?_eq_none]

lemma updAt_pids (id : String) (g : Proposal → Proposal)
    (hg : ∀ q, (g q).pid = q.pid) (l : List Proposal) :
    (updAt id g l).map Proposal.pid = l.map Proposal.pid := by
  induction l with
  | nil => rfl
  | cons q l ih =>
    show ((if q.pid == id then g q else q) :: updAt id g l).map Proposal.pid
        = q.pid :: l.map Proposal.pid
    simp only [List.map_cons]
    rw [ih]
    by_cases h : (q.pid == id) = true <;> simp [h, hg q]

lemma findP_updAt_self {l : List Proposal} {id : String} {p : Proposal}
    (g : Proposal → Proposal) (hg : ∀ q, (g q).pid = q.pid)
    (hfind : findP l id = some p) :
    findP (updAt id g l) id = some (g p) := by
  induction l with
  | nil => simp [findP] at hfind
  | cons q l ih =>
    unfold findP at hfind ⊢
    show List.find? _ ((if q.pid == id then g q else q) :: updAt id g l) = _
    by_cases h : (q.pid == id) = true
    · rw [if_pos h]
      have hgq : ((g q).pid == id) = true := by rw [hg q]; exact h
      simp only [List.find?_cons, h, hgq] at hfind ⊢
      rw [Option.some.inj hfind]
    · rw [if_neg h]
      have hf : (q.pid == id) = false := by simpa using h
      simp only [List.find?_cons, hf] at hfind ⊢
      exact ih hfind

lemma mem_updAt {id : String} {g : Proposal → Proposal} {l : List Proposal}
    {q2 : Proposal} (h : q2 ∈ updAt id g l) :
    ∃ q ∈ l, q2 = if q.pid == id then g q else q := by
  rcases List.mem_map.mp h with ⟨q, hq, he⟩
  exact ⟨q, hq, he.symm⟩

lemma mem_updAt_of_mem {id : String} {g : Proposal → Proposal}
    {l : List Proposal} {q : Proposal} (hq : q ∈ l) :
    (if q.pid == id then g q else q) ∈ updAt id g l :=
  List.mem_map_of_mem _ hq

lemma pid_inj {l : List Proposal} (hn : (l.map Proposal.pid).Nodup)
    {p q : Proposal} (hp : p ∈ l) (hq : q ∈ l) (h : p.pid = q.pid) : p = q :=
  List.inj_on_of_nodup_map hn hp hq h

lemma approvePOST_invalid {db : Sys} {id : String} {p : Proposal}
    {ap : Option String} {now : Nat}
    (hfind : findP db.proposals id = some p)
    (hguard : (p.status != "pending" && p.status != "pending_approval") = true) :
    approvePOST db id ap now = ⟨.invalidState, db, false⟩ := by
  unfold approvePOST
  rw [hfind]
  simp [hguard]

lemma approvePOST_pending {db : Sys} {id : String} {p : Proposal}
    {ap : Option String} {now : Nat}
    (hfind : findP db.proposals id = some p)
    (hp : p.status = "pending" ∨ p.status = "pending_approval") :
    approvePOST db id ap now =
      ⟨.ok,
       { db with proposals := updAt id (approveUpd ap now) db.proposals },
       p.action_type == "email" || p.action_type == "webhook"⟩ := by
  have hguard : (p.status != "pending" && p.status != "pending_approval") = false := by
    rcases hp with h | h <;> simp [h]
  unfold approvePOST
  rw [hfind]
  simp [hguard]

lemma rejectPOST_invalid {db : Sys} {id : String} {p : Proposal}
    {r ap : Option String}
    (hfind : findP db.proposals id = some p)
    (hguard : (p.status != "pending" && p.status != "pending_approval") = true) :
    rejectPOST db id r ap = ⟨.invalidState, db⟩ := by
  unfold rejectPOST
  rw [hfind]
  simp [hguard]

lemma rejectPOST_pending {db : Sys} {id : String} {p : Proposal}
    {r ap : Option String}
    (hfind : findP db.proposals id = some p)
    (hp : p.status = "pending" ∨ p.status = "pending_approval") :
    rejectPOST db id r ap =
      ⟨.ok,
       { db with proposals := updAt id (rejectUpd r ap) db.proposals }⟩ := by
  have hguard : (p.status != "pending" && p.status != "pending_approval") = false := by
    rcases hp with h | h <;> simp [h]
  unfold rejectPOST
  rw [hfind]
  simp [hguard]

lemma guard_false_iff {p : Proposal} :
    (p.status != "pending" && p.status != "pending_approval") = false ↔
      p.status = "pending" ∨ p.status = "pending_approval" := by
  simp [Bool.and_eq_false_iff]
  exact or_iff_not_imp_left.symm

lemma guard_of_not {p : Proposal} (h : ¬ p.status = "pending")
    (h2 : ¬ p.status = "pending_approval") :
    (p.status != "pending" && p.status != "pending_approval") = true := by
  simp [h, h2]

lemma specExec_none {db : Sys} {pid : String} {s : Bool} {now : Nat}
    (hf : findP db.proposals pid = none) :
    specExecuteAction db pid s now = db := by
  unfold specExecuteAction
  rw [hf]

lemma specExec_notApproved {db : Sys} {pid : String} {p : Proposal} {s : Bool}
    {now : Nat} (hf : findP db.proposals pid = some p)
    (hs : ¬ p.status = "approved") :
    specExecuteAction db pid s now = db := by
  unfold specExecuteAction
  rw [hf]
  simp [hs]

lemma specExec_success {db : Sys} {pid : String} {p : Proposal} {now : Nat}
    (hf : findP db.proposals pid = some p) (hs : p.status = "approved") :
    specExecuteAction db pid true now =
      { db with
          proposals := updAt pid (execUpd now) db.proposals
          executions := db.executions ++
            [⟨pid, "succeeded", some ("exec:" ++ pid), some now, some now⟩]
          audit := db.audit ++
            [⟨"execution_completed", "ActionProposal", pid, now⟩] } := by
  unfold specExecuteAction
  rw [hf]
  simp [hs]

lemma specExec_failure {db : Sys} {pid : String} {p : Proposal} {now : Nat}
    (hf : findP db.proposals pid = some p) (hs : p.status = "approved") :
    specExecuteAction db pid false now =
      { db with
          executions := db.executions ++
            [⟨pid, "failed", some ("exec:" ++ pid), some now, some now⟩]
          audit := db.audit ++
            [⟨"execution_completed", "ActionProposal", pid, now⟩] } := by
  unfold specExecuteAction
  rw [hf]
  simp [hs]

lemma pinv_mono {s t : Nat} (hst : s ≤ t) {p : Proposal} (h : PInv s p) :
    PInv t p :=
  ⟨fun ta hta => le_trans (h.1 ta hta) hst, h.2.1, h.2.2⟩

lemma sysInv_mono {s t : Nat} (hst : s ≤ t) {db : Sys} (h : SysInv s db) :
    SysInv t db :=
  ⟨h.1, fun p hp => pinv_mono hst (h.2.1 p hp), h.2.2⟩

lemma sysInv_init : SysInv 0 initSys := by
  refine ⟨List.nodup_nil, ?_, ?_⟩ <;> intro x hx <;> exact absurd hx (List.not_mem_nil x)

lemma sysInv_createPOST {t now : Nat} {db : Sys} {pid u v a pl : String}
    (h : SysInv t db) (hle : t ≤ now) :
    SysInv now (createPOST db pid u v a pl now).db := by
  obtain ⟨hnd, hP, hE⟩ := h
  unfold createPOST
  cases hf : findP db.proposals pid with
  | some q => exact sysInv_mono hle ⟨hnd, hP, hE⟩
  | none =>
    refine ⟨?_, ?_, ?_⟩
    · show ((db.proposals ++ [_]).map Proposal.pid).Nodup
      rw [List.map_append]
      refine List.Nodup.append hnd (List.nodup_singleton _) ?_
      intro x hx hx2
      simp only [List.map_cons, List.map_nil, List.mem_singleton] at hx2
      subst hx2
      rcases List.mem_map.mp hx with ⟨p2, hp2, hpe⟩
      exact findP_eq_none_iff.mp hf p2 hp2 hpe
    · intro p2 hp2
      rcases List.mem_append.mp hp2 with h1 | h1
      · exact pinv_mono hle (hP p2 h1)
      · rw [List.mem_singleton] at h1
        subst h1
        refine ⟨?_, ?_, ?_⟩
        · intro ta hta
          exact Option.noConfusion hta
        · intro hs
          have hs2 : ("pending" : String) = "approved" := hs
          exact absurd hs2 (by decide)
        · intro te hte
          exact Option.noConfusion hte
    · intro ex hex
      obtain ⟨pw, hpw, hpe, ha⟩ := hE ex hex
      exact ⟨pw, List.mem_append_left _ hpw, hpe, ha⟩

lemma sysInv_approvePOST {t now : Nat} {db : Sys} {id : String}
    {ap : Option String} (h : SysInv t db) (hle : t ≤ now) :
    SysInv now (approvePOST db id ap now).db := by
  obtain ⟨hnd, hP, hE⟩ := h
  cases hf : findP db.proposals id with
  | none =>
    have heq : approvePOST db id ap now = ⟨.notFound, db, false⟩ := by
      unfold approvePOST
      rw [hf]
    rw [heq]
    exact sysInv_mono hle ⟨hnd, hP, hE⟩
  | some p =>
    by_cases hg : (p.status != "pending" && p.status != "pending_approval") = true
    · rw [approvePOST_invalid hf hg]
      exact sysInv_mono hle ⟨hnd, hP, hE⟩
    · have hpend : p.status = "pending" ∨ p.status = "pending_approval" :=
        guard_false_iff.mp (by simpa using hg)
      have hppid := findP_some hf
      rw [approvePOST_pending hf hpend]
      refine ⟨?_, ?_, ?_⟩
      · show ((updAt id (approveUpd ap now) db.proposals).map Proposal.pid).Nodup
        rw [updAt_pids id (approveUpd ap now) (fun q => rfl)]
        exact hnd
      · intro p2 hp2
        obtain ⟨q, hq, hcase⟩ := mem_updAt hp2
        by_cases hqid : (q.pid == id) = true
        · rw [if_pos hqid] at hcase
          subst hcase
          have hqp : q = p :=
            pid_inj hnd hq hppid.1 (by rw [beq_iff_eq.mp hqid, hppid.2])
          refine ⟨?_, ?_, ?_⟩
          · intro ta hta
            exact le_of_eq (Option.some.inj hta).symm
          · intro _
            rfl
          · intro te hte
            have h3 := (hP q hq).2.2 te hte
            rw [hqp] at h3
            rcases hpend with hs | hs <;> rw [hs] at h3 <;>
              exact absurd h3.1 (by decide)
        · rw [if_neg hqid] at hcase
          rw [hcase]
          exact pinv_mono hle (hP q hq)
      · intro ex hex
        obtain ⟨pw, hpw, hpe, ha⟩ := hE ex hex
        refine ⟨if pw.pid == id then approveUpd ap now pw else pw,
          mem_updAt_of_mem hpw, ?_, ?_⟩
        · by_cases hw : (pw.pid == id) = true
          · rw [if_pos hw]
            exact hpe
          · rw [if_neg hw]
            exact hpe
        · by_cases hw : (pw.pid == id) = true
          · rw [if_pos hw]
            rfl
          · rw [if_neg hw]
            exact ha

lemma sysInv_rejectPOST {t now : Nat} {db : Sys} {id : String}
    {r ap : Option String} (h : SysInv t db) (hle : t ≤ now) :
    SysInv now (rejectPOST db id r ap).db := by
  obtain ⟨hnd, hP, hE⟩ := h
  cases hf : findP db.proposals id with
  | none =>
    have heq : rejectPOST db id r ap = ⟨.notFound, db⟩ := by
      unfold rejectPOST
      rw [hf]
    rw [heq]
    exact sysInv_mono hle ⟨hnd, hP, hE⟩
  | some p =>
    by_cases hg : (p.status != "pending" && p.status != "pending_approval") = true
    · rw [rejectPOST_invalid hf hg]
      exact sysInv_mono hle ⟨hnd, hP, hE⟩
    · have hpend : p.status = "pending" ∨ p.status = "pending_approval" :=
        guard_false_iff.mp (by simpa using hg)
      have hppid := findP_some hf
      rw [rejectPOST_pending hf hpend]
      refine ⟨?_, ?_, ?_⟩
      · show ((updAt id (rejectUpd r ap) db.proposals).map Proposal.pid).Nodup
        rw [updAt_pids id (rejectUpd r ap) (fun q => rfl)]
        exact hnd
      · intro p2 hp2
        obtain ⟨q, hq, hcase⟩ := mem_updAt hp2
        by_cases hqid : (q.pid == id) = true
        · rw [if_pos hqid] at hcase
          subst hcase
          have hqp : q = p :=
            pid_inj hnd hq hppid.1 (by rw [beq_iff_eq.mp hqid, hppid.2])
          refine ⟨?_, ?_, ?_⟩
          · intro ta hta
            exact le_trans ((hP q hq).1 ta hta) hle
          · intro hs
            have hs2 : ("rejected" : String) = "approved" := hs
            exact absurd hs2 (by decide)
          · intro te hte
            have h3 := (hP q hq).2.2 te hte
            rw [hqp] at h3
            rcases hpend with hs | hs <;> rw [hs] at h3 <;>
              exact absurd h3.1 (by decide)
        · rw [if_neg hqid] at hcase
          rw [hcase]
          exact pinv_mono hle (hP q hq)
      · intro ex hex
        obtain ⟨pw, hpw, hpe, ha⟩ := hE ex hex
        refine ⟨if pw.pid == id then rejectUpd r ap pw else pw,
          mem_updAt_of_mem hpw, ?_, ?_⟩
        · by_cases hw : (pw.pid == id) = true
          · rw [if_pos hw]
            exact hpe
          · rw [if_neg hw]
            exact hpe
        · by_cases hw : (pw.pid == id) = true
          · rw [if_pos hw]
            exact ha
          · rw [if_neg hw]
            exact ha

lemma sysInv_execDone {t now : Nat} {db : Sys} {pid : String} {s : Bool}
    (h : SysInv t db) (hle : t ≤ now) :
    SysInv now (specExecuteAction db pid s now) := by
  obtain ⟨hnd, hP, hE⟩ := h
  cases hf : findP db.proposals pid with
  | none =>
    rw [specExec_none hf]
    exact sysInv_mono hle ⟨hnd, hP, hE⟩
  | some p =>
    by_cases hap : p.status = "approved"
    · have hppid := findP_some hf
      have hsome : p.approved_at.isSome = true := (hP p hppid.1).2.1 hap
      obtain ⟨ta, hta⟩ := Option.isSome_iff_exists.mp hsome
      have htat : ta ≤ t := (hP p hppid.1).1 ta hta
      cases s with
      | false =>
        rw [specExec_failure hf hap]
        refine ⟨hnd, fun p2 hp2 => pinv_mono hle (hP p2 hp2), ?_⟩
        intro ex hex
        rcases List.mem_append.mp hex with h1 | h1
        · exact hE ex h1
        · rw [List.mem_singleton] at h1
          subst h1
          exact ⟨p, hppid.1, hppid.2, hsome⟩
      | true =>
        rw [specExec_success hf hap]
        refine ⟨?_, ?_, ?_⟩
        · show ((updAt pid (execUpd now) db.proposals).map Proposal.pid).Nodup
          rw [updAt_pids pid (execUpd now) (fun q => rfl)]
          exact hnd
        · intro p2 hp2
          obtain ⟨q, hq, hcase⟩ := mem_updAt hp2
          by_cases hqid : (q.pid == pid) = true
          · rw [if_pos hqid] at hcase
            subst hcase
            have hqp : q = p :=
              pid_inj hnd hq hppid.1 (by rw [beq_iff_eq.mp hqid, hppid.2])
            refine ⟨?_, ?_, ?_⟩
            · intro ta2 hta2
              exact le_trans ((hP q hq).1 ta2 hta2) hle
            · intro hs2
              have hs3 : ("executed" : String) = "approved" := hs2
              exact absurd hs3 (by decide)
            · intro te hte
              have hten : now = te := Option.some.inj hte
              refine ⟨rfl, ta, ?_, ?_⟩
              · show q.approved_at = some ta
                rw [hqp]
                exact hta
              · exact hten ▸ le_trans htat hle
          · rw [if_neg hqid] at hcase
            rw [hcase]
            exact pinv_mono hle (hP q hq)
        · intro ex hex
          rcases List.mem_append.mp hex with h1 | h1
          · obtain ⟨pw, hpw, hpe, ha⟩ := hE ex h1
            refine ⟨if pw.pid == pid then execUpd now pw else pw,
              mem_updAt_of_mem hpw, ?_, ?_⟩
            · by_cases hw : (pw.pid == pid) = true
              · rw [if_pos hw]
                exact hpe
              · rw [if_neg hw]
                exact hpe
            · by_cases hw : (pw.pid == pid) = true
              · rw [if_pos hw]
                exact ha
              · rw [if_neg hw]
                exact ha
          · rw [List.mem_singleton] at h1
            subst h1
            have hw : (p.pid == pid) = true := beq_iff_eq.mpr hppid.2
            refine ⟨if p.pid == pid then execUpd now p else p,
              mem_updAt_of_mem hppid.1, ?_, ?_⟩
            · rw [if_pos hw]
              exact hppid.2
            · rw [if_pos hw]
              exact hsome
    · rw [specExec_notApproved hf hap]
      exact sysInv_mono hle ⟨hnd, hP, hE⟩

lemma sysInv_eventsPOST {t now : Nat} {db : Sys}
    {source occurred externalId payload : Option String}
    (h : SysInv t db) (hle : t ≤ now) :
    SysInv now (eventsPOST db source occurred externalId payload).db := by
  unfold eventsPOST
  by_cases hv : (isFalsy source || isFalsy occurred || isFalsy payload) = true <;>
    simp only [hv, if_true, if_false, Bool.false_eq_true] <;>
    exact sysInv_mono hle h

lemma sysInv_step {t : Nat} {db : Sys} {op : Op} (h : SysInv t db)
    (hle : t ≤ opTime op) : SysInv (opTime op) (step db op) := by
  cases op with
  | createP pid u v a pl n => exact sysInv_createPOST h hle
  | approveP pid ap n => exact sysInv_approvePOST h hle
  | rejectP pid r ap n => exact sysInv_rejectPOST h hle
  | execDone pid s n => exact sysInv_execDone h hle
  | ingestE s o e pl n => exact sysInv_eventsPOST h hle

lemma sysInv_run : ∀ (ops : List Op) (t : Nat) (db : Sys), SysInv t db →
    timesMono t ops = true → ∃ u, SysInv u (run db ops) := by
  intro ops
  induction ops with
  | nil =>
    intro t db h _
    exact ⟨t, h⟩
  | cons op ops ih =>
    intro t db h hm
    simp only [timesMono, Bool.and_eq_true, decide_eq_true_eq] at hm
    exact ih (opTime op) (step db op) (sysInv_step h hm.1) hm.2

/-- C1: for every proposal, an Execution occurs only after the proposal's
status has transitioned into `approved`: in every store reachable by a
time-monotone sequence of API calls from the empty store, every
`Execution` row points to a proposal that carries an approval timestamp,
and `executed_at ≥ approved_at` whenever both timestamps are set. -/
theorem c1_no_unapproved_execution (ops : List Op)
    (h : timesMono 0 ops = true) :
    (∀ ex ∈ (run initSys ops).executions, ∃ p ∈ (run initSys ops).proposals,
      p.pid = ex.proposal_id ∧ p.approved_at.isSome = true) ∧
    (∀ p ∈ (run initSys ops).proposals, ∀ ta te,
      p.approved_at = some ta → p.executed_at = some te → ta ≤ te) := by
  obtain ⟨u, hnd, hP, hE⟩ := sysInv_run ops 0 initSys sysInv_init h
  refine ⟨hE, ?_⟩
  intro p hp ta te hta hte
  obtain ⟨_, ta2, hta2, hle2⟩ := (hP p hp).2.2 te hte
  rw [hta] at hta2
  rw [Option.some.inj hta2]
  exact hle2

/-- Witness for `c1_no_unapproved_execution` at a concrete run. -/
theorem c1_no_unapproved_execution_witness :
    timesMono 0 c1ops = true ∧
    ((∀ ex ∈ (run initSys c1ops).executions, ∃ p ∈ (run initSys c1ops).proposals,
        p.pid = ex.proposal_id ∧ p.approved_at.isSome = true) ∧
     (∀ p ∈ (run initSys c1ops).proposals, ∀ ta te,
        p.approved_at = some ta → p.executed_at = some te → ta ≤ te)) :=
  ⟨by decide, c1_no_unapproved_execution c1ops (by decide)⟩

/-- C2: an approve or reject call on a proposal whose current status is
not in `{pending, pending_approval}` fails with the invalid-state error
(surfaced as HTTP 400) and leaves the stored state completely unchanged. -/
theorem c2_invalid_transition_rejected (db : Sys) (id : String) (p : Proposal)
    (ap r : Option String) (now : Nat)
    (hfind : findP db.proposals id = some p)
    (h1 : p.status ≠ "pending") (h2 : p.status ≠ "pending_approval") :
    approvePOST db id ap now = ⟨.invalidState, db, false⟩ ∧
    rejectPOST db id r ap = ⟨.invalidState, db⟩ ∧
    statusCode Resp.invalidState = 400 := by
  have hg := guard_of_not h1 h2
  exact ⟨approvePOST_invalid hfind hg, rejectPOST_invalid hfind hg, rfl⟩

/-- Witness for `c2_invalid_transition_rejected` on an approved proposal. -/
theorem c2_invalid_transition_rejected_witness :
    (findP c2db.proposals "p1" = some c2p ∧ c2p.status ≠ "pending" ∧
      c2p.status ≠ "pending_approval") ∧
    (approvePOST c2db "p1" none 5 = ⟨.invalidState, c2db, false⟩ ∧
     rejectPOST c2db "p1" (some "dup") none = ⟨.invalidState, c2db⟩ ∧
     statusCode Resp.invalidState = 400) :=
  ⟨⟨by decide, by decide, by decide⟩,
   c2_invalid_transition_rejected c2db "p1" c2p none (some "dup") 5
     (by decide) (by decide) (by decide)⟩

/-- C3: approving the same proposal twice yields the same terminal store
state as approving it once: the first call succeeds, the second call is
rejected with the invalid-state error, changes nothing, and does not fire
the execution side effect again. -/
theorem c3_double_approve_single_effect (db : Sys) (id : String)
    (p : Proposal) (a1 a2 : Option String) (t1 t2 : Nat)
    (hfind : findP db.proposals id = some p)
    (hp : p.status = "pending" ∨ p.status = "pending_approval") :
    (approvePOST db id a1 t1).resp = .ok ∧
    approvePOST (approvePOST db id a1 t1).db id a2 t2 =
      ⟨.invalidState, (approvePOST db id a1 t1).db, false⟩ := by
  rw [approvePOST_pending hfind hp]
  refine ⟨rfl, ?_⟩
  have hf2 : findP (updAt id (approveUpd a1 t1) db.proposals) id
      = some (approveUpd a1 t1 p) :=
    findP_updAt_self (approveUpd a1 t1) (fun q => rfl) hfind
  have hg : ((approveUpd a1 t1 p).status != "pending" &&
      (approveUpd a1 t1 p).status != "pending_approval") = true := by
    apply guard_of_not
    · intro h
      exact absurd (show ("approved" : String) = "pending" from h) (by decide)
    · intro h
      exact absurd (show ("approved" : String) = "pending_approval" from h) (by decide)
  exact approvePOST_invalid hf2 hg

/-- Witness for `c3_double_approve_single_effect` on a concrete store. -/
theorem c3_double_approve_single_effect_witness :
    (findP c3db.proposals "p1" = some c3p ∧
      (c3p.status = "pending" ∨ c3p.status = "pending_approval")) ∧
    ((approvePOST c3db "p1" none 3).resp = .ok ∧
     approvePOST (approvePOST c3db "p1" none 3).db "p1" none 4 =
       ⟨.invalidState, (approvePOST c3db "p1" none 3).db, false⟩) :=
  ⟨⟨by decide, by decide⟩,
   c3_double_approve_single_effect c3db "p1" c3p none none 3 4
     (by decide) (by decide)⟩

/-- C6 counterexample: a successful approval of a proposal with
`action_type = "command"` does not invoke execution, refuting "execution
is invoked automatically on approval regardless of action_type". -/
theorem c6_command_approval_skips_execution :
    (approvePOST c6db "p1" none 1).resp = .ok ∧
    (approvePOST c6db "p1" none 1).execCalled = false := by decide

/-- C6 (amended): a successful approve call triggers the execute step iff
the proposal's action_type is `email` or `webhook`; for every other
action type the approval succeeds without invoking execution. -/
theorem c6_execution_iff_email_or_webhook (db : Sys) (id : String)
    (p : Proposal) (ap : Option String) (now : Nat)
    (hfind : findP db.proposals id = some p)
    (hp : p.status = "pending" ∨ p.status = "pending_approval") :
    (approvePOST db id ap now).resp = .ok ∧
    (approvePOST db id ap now).execCalled =
      (p.action_type == "email" || p.action_type == "webhook") := by
  rw [approvePOST_pending hfind hp]
  exact ⟨rfl, rfl⟩

/-- Witness for `c6_execution_iff_email_or_webhook` on an email proposal. -/
theorem c6_execution_iff_email_or_webhook_witness :
    (findP c3db.proposals "p1" = some c3p ∧
      (c3p.status = "pending" ∨ c3p.status = "pending_approval")) ∧
    ((approvePOST c3db "p1" none 7).resp = .ok ∧
     (approvePOST c3db "p1" none 7).execCalled =
       (c3p.action_type == "email" || c3p.action_type == "webhook")) :=
  ⟨⟨by decide, by decide⟩,
   c6_execution_iff_email_or_webhook c3db "p1" c3p none 7
     (by decide) (by decide)⟩

/-- C7: neither the approve handler nor the reject handler appends an
`AuditLog` row, on any store and any input: the audit table is unchanged
by every state transition the HTTP layer performs, contradicting the
claimed audit append on approval. -/
theorem c7_transitions_append_no_audit (db : Sys) (id : String)
    (ap r : Option String) (now : Nat) :
    (approvePOST db id ap now).db.audit = db.audit ∧
    (rejectPOST db id r ap).db.audit = db.audit := by
  constructor
  · unfold approvePOST
    cases hf : findP db.proposals id with
    | none => rfl
    | some p =>
      by_cases hg : (p.status != "pending" && p.status != "pending_approval") = true
      · simp [hg]
      · have hg2 : (p.status != "pending" && p.status != "pending_approval") = false := by
          simpa using hg
        simp [hg2]
  · unfold rejectPOST
    cases hf : findP db.proposals id with
    | none => rfl
    | some p =>
      by_cases hg : (p.status != "pending" && p.status != "pending_approval") = true
      · simp [hg]
      · have hg2 : (p.status != "pending" && p.status != "pending_approval") = false := by
          simpa using hg
        simp [hg2]

/-- C4: ingesting the same `(source, external_id)` payload twice stores
two `Event` rows, not one — the ingestion path creates unconditionally
and the schema has no uniqueness constraint on `(source, external_id)`,
so duplicate webhook deliveries do create duplicate Events. -/
theorem c4_duplicate_ingest_stores_two_rows :
    (eventsPOST initSys (some "stripe") (some "2025-01-01T00:00:00Z")
      (some "evt_1") (some "{}")).resp = .ok ∧
    (eventsPOST (eventsPOST initSys (some "stripe") (some "2025-01-01T00:00:00Z")
        (some "evt_1") (some "{}")).db
      (some "stripe") (some "2025-01-01T00:00:00Z")
      (some "evt_1") (some "{}")).resp = .ok ∧
    ((eventsPOST (eventsPOST initSys (some "stripe") (some "2025-01-01T00:00:00Z")
        (some "evt_1") (some "{}")).db
      (some "stripe") (some "2025-01-01T00:00:00Z")
      (some "evt_1") (some "{}")).db.events.filter
        (fun e => e.source == "stripe" && e.external_id == some "evt_1")).length
      = 2 := by decide

/-- C5: the listing endpoint orders by the `TEXT` column `urgency`
descending, which is lexicographic: a `medium` proposal is returned
before a `critical` one, so the claimed critical→high→medium→low order
does not hold. -/
theorem c5_listing_puts_medium_before_critical :
    (actionsGET { proposals := [c5crit, c5med] } none none 50 0).map
        (fun p => p.urgency) = ["medium", "critical"] := by decide

/-- C9: the ingestion endpoint rejects a request with a falsy `source`,
`occurred_at` or `payload` with HTTP 400 before persisting anything, and
otherwise stores exactly one event whose source is the lower-cased form
of the supplied source. -/
theorem c9_ingest_validates_and_lowercases (db : Sys)
    (source occurred externalId payload : Option String) :
    ((isFalsy source || isFalsy occurred || isFalsy payload) = true →
      eventsPOST db source occurred externalId payload = ⟨.badRequest, db⟩) ∧
    (∀ s o pl : String, source = some s → occurred = some o →
      payload = some pl → s ≠ "" → o ≠ "" → pl ≠ "" →
      eventsPOST db source occurred externalId payload =
        ⟨.ok, { db with events := db.events ++
          [{ source := lowerStr s, occurred_at := o,
             external_id := externalId, payload := pl }] }⟩) := by
  constructor
  · intro hv
    unfold eventsPOST
    simp [hv]
  · intro s o pl hs ho hpl hs2 ho2 hpl2
    subst hs
    subst ho
    subst hpl
    have hv : (isFalsy (some s) || isFalsy (some o) || isFalsy (some pl)) = false := by
      simp [isFalsy, hs2, ho2, hpl2]
    unfold eventsPOST
    simp [hv]

/-- Witness for `c9_ingest_validates_and_lowercases` at concrete inputs:
a request missing `source` is a 400 no-op, and a valid request with
source `"Stripe"` stores it as `"stripe"`. -/
theorem c9_ingest_validates_and_lowercases_witness :
    eventsPOST initSys none (some "t0") none (some "{}") =
      ⟨.badRequest, initSys⟩ ∧
    eventsPOST initSys (some "Stripe") (some "t0") (some "e1") (some "{}") =
      ⟨.ok, { initSys with events := initSys.events ++
        [{ source := lowerStr "Stripe", occurred_at := "t0",
           external_id := some "e1", payload := "{}" }] }⟩ ∧
    lowerStr "Stripe" = "stripe" :=
  ⟨(c9_ingest_validates_and_lowercases initSys none (some "t0") none
      (some "{}")).1 (by decide),
   (c9_ingest_validates_and_lowercases initSys (some "Stripe") (some "t0")
      (some "e1") (some "{}")).2 "Stripe" "t0" "{}" rfl rfl rfl
      (by decide) (by decide) (by decide),
   by decide⟩

lemma canvasMatch_mem (n : String) : ∀ ks : List String,
    canvasMatch n ks = "proposals" ∨ canvasMatch n ks ∈ ks := by
  intro ks
  induction ks with
  | nil => exact Or.inl rfl
  | cons k ks ih =>
    unfold canvasMatch
    by_cases h : keyMatches n k = true
    · rw [if_pos h]
      exact Or.inr (List.mem_cons_self k ks)
    · rw [if_neg h]
      rcases ih with h1 | h1
      · exact Or.inl h1
      · exact Or.inr (List.mem_cons_of_mem k h1)

lemma canvasMatch_default (n : String) : ∀ ks : List String,
    (∀ k ∈ ks, keyMatches n k = false) → canvasMatch n ks = "proposals" := by
  intro ks
  induction ks with
  | nil => intro _; rfl
  | cons k ks ih =>
    intro h
    unfold canvasMatch
    rw [if_neg (by simp [h k (List.mem_cons_self k ks)])]
    exact ih (fun k2 hk2 => h k2 (List.mem_cons_of_mem k hk2))

/-- C10 counterexample: the empty query is rejected with 400 before any
handler is selected, so it does not hold that every input query string
invokes exactly one handler. -/
theorem c10_empty_query_invokes_no_handler : canvasPOST "" = none := rfl

/-- C10 (amended): for every nonempty query string the canvas endpoint
invokes exactly one handler, and that handler is always one of the six
whitelisted keys; when no whitelist key matches the normalized query, the
proposal-stats handler is selected.  The match is a pure function of the
query text, so it is deterministic. -/
theorem c10_canvas_whitelist_total (q : String) (hq : q ≠ "") :
    (∃ h, canvasPOST q = some h ∧ h ∈ ANALYTICS_KEYS) ∧
    ((∀ k ∈ ANALYTICS_KEYS, keyMatches (trimStr (lowerStr q)) k = false) →
      canvasPOST q = some "proposals") := by
  have hq2 : (q == "") = false := by simp [hq]
  constructor
  · refine ⟨canvasMatch (trimStr (lowerStr q)) ANALYTICS_KEYS, ?_, ?_⟩
    · unfold canvasPOST
      simp [hq2]
    · rcases canvasMatch_mem (trimStr (lowerStr q)) ANALYTICS_KEYS with h1 | h1
      · rw [h1]
        decide
      · exact h1
  · intro hnone
    unfold canvasPOST
    simp only [hq2, Bool.false_eq_true, if_false]
    rw [canvasMatch_default _ _ hnone]

/-- Witness for `c10_canvas_whitelist_total` on a concrete query. -/
theorem c10_canvas_whitelist_total_witness :
    ("What is our runway?" : String) ≠ "" ∧
    ((∃ h, canvasPOST "What is our runway?" = some h ∧ h ∈ ANALYTICS_KEYS) ∧
     ((∀ k ∈ ANALYTICS_KEYS,
        keyMatches (trimStr (lowerStr "What is our runway?")) k = false) →
      canvasPOST "What is our runway?" = some "proposals")) :=
  ⟨by decide, c10_canvas_whitelist_total "What is our runway?" (by decide)⟩

lemma nodup_append_fresh {l : List Proposal} {p : Proposal}
    (hnd : (l.map Proposal.pid).Nodup) (hf : findP l p.pid = none) :
    ((l ++ [p]).map Proposal.pid).Nodup := by
  rw [List.map_append]
  refine List.Nodup.append hnd (List.nodup_singleton _) ?_
  intro x hx hx2
  simp only [List.map_cons, List.map_nil, List.mem_singleton] at hx2
  subst hx2
  rcases List.mem_map.mp hx with ⟨p2, hp2, hpe⟩
  exact findP_eq_none_iff.mp hf p2 hp2 hpe

lemma rejInv_step {id : String} {db : Sys} (h : RejInv id db) (op : Op) :
    RejInv id (step db op) ∧ execsFor (step db op) id = execsFor db id := by
  obtain ⟨hnd, q, hq, hqid, hqs⟩ := h
  cases op with
  | createP pid u v a pl n =>
    show RejInv id (createPOST db pid u v a pl n).db ∧
      execsFor (createPOST db pid u v a pl n).db id = execsFor db id
    unfold createPOST
    cases hf : findP db.proposals pid with
    | some p2 => exact ⟨⟨hnd, q, hq, hqid, hqs⟩, rfl⟩
    | none =>
      exact ⟨⟨nodup_append_fresh hnd hf, q, List.mem_append_left _ hq, hqid, hqs⟩, rfl⟩
  | approveP pid2 ap n =>
    show RejInv id (approvePOST db pid2 ap n).db ∧
      execsFor (approvePOST db pid2 ap n).db id = execsFor db id
    cases hf : findP db.proposals pid2 with
    | none =>
      have heq : approvePOST db pid2 ap n = ⟨.notFound, db, false⟩ := by
        unfold approvePOST
        rw [hf]
      rw [heq]
      exact ⟨⟨hnd, q, hq, hqid, hqs⟩, rfl⟩
    | some p =>
      by_cases hg : (p.status != "pending" && p.status != "pending_approval") = true
      · rw [approvePOST_invalid hf hg]
        exact ⟨⟨hnd, q, hq, hqid, hqs⟩, rfl⟩
      · have hpend : p.status = "pending" ∨ p.status = "pending_approval" :=
          guard_false_iff.mp (by simpa using hg)
        rw [approvePOST_pending hf hpend]
        have hqneq : (q.pid == pid2) = false := by
          by_contra hcon
          have hqp2 : (q.pid == pid2) = true := by simpa using hcon
          have hqp : q = p :=
            pid_inj hnd hq (findP_some hf).1
              (by rw [beq_iff_eq.mp hqp2, (findP_some hf).2])
          rw [hqp] at hqs
          rcases hpend with hs | hs <;> rw [hs] at hqs <;>
            exact absurd hqs (by decide)
        refine ⟨⟨?_, ?_⟩, rfl⟩
        · show ((updAt pid2 (approveUpd ap n) db.proposals).map Proposal.pid).Nodup
          rw [updAt_pids pid2 (approveUpd ap n) (fun r2 => rfl)]
          exact hnd
        · have helem : (if q.pid == pid2 then approveUpd ap n q else q) = q := by
            simp [hqneq]
          have hmem : (if q.pid == pid2 then approveUpd ap n q else q) ∈
              updAt pid2 (approveUpd ap n) db.proposals := mem_updAt_of_mem hq
          rw [helem] at hmem
          exact ⟨q, hmem, hqid, hqs⟩
  | rejectP pid2 r ap n =>
    show RejInv id (rejectPOST db pid2 r ap).db ∧
      execsFor (rejectPOST db pid2 r ap).db id = execsFor db id
    cases hf : findP db.proposals pid2 with
    | none =>
      have heq : rejectPOST db pid2 r ap = ⟨.notFound, db⟩ := by
        unfold rejectPOST
        rw [hf]
      rw [heq]
      exact ⟨⟨hnd, q, hq, hqid, hqs⟩, rfl⟩
    | some p =>
      by_cases hg : (p.status != "pending" && p.status != "pending_approval") = true
      · rw [rejectPOST_invalid hf hg]
        exact ⟨⟨hnd, q, hq, hqid, hqs⟩, rfl⟩
      · have hpend : p.status = "pending" ∨ p.status = "pending_approval" :=
          guard_false_iff.mp (by simpa using hg)
        rw [rejectPOST_pending hf hpend]
        have hqneq : (q.pid == pid2) = false := by
          by_contra hcon
          have hqp2 : (q.pid == pid2) = true := by simpa using hcon
          have hqp : q = p :=
            pid_inj hnd hq (findP_some hf).1
              (by rw [beq_iff_eq.mp hqp2, (findP_some hf).2])
          rw [hqp] at hqs
          rcases hpend with hs | hs <;> rw [hs] at hqs <;>
            exact absurd hqs (by decide)
        refine ⟨⟨?_, ?_⟩, rfl⟩
        · show ((updAt pid2 (rejectUpd r ap) db.proposals).map Proposal.pid).Nodup
          rw [updAt_pids pid2 (rejectUpd r ap) (fun r2 => rfl)]
          exact hnd
        · have helem : (if q.pid == pid2 then rejectUpd r ap q else q) = q := by
            simp [hqneq]
          have hmem : (if q.pid == pid2 then rejectUpd r ap q else q) ∈
              updAt pid2 (rejectUpd r ap) db.proposals := mem_updAt_of_mem hq
          rw [helem] at hmem
          exact ⟨q, hmem, hqid, hqs⟩
  | execDone pid2 s n =>
    show RejInv id (specExecuteAction db pid2 s n) ∧
      execsFor (specExecuteAction db pid2 s n) id = execsFor db id
    cases hf : findP db.proposals pid2 with
    | none =>
      rw [specExec_none hf]
      exact ⟨⟨hnd, q, hq, hqid, hqs⟩, rfl⟩
    | some p =>
      by_cases hap : p.status = "approved"
      · have hqneq : (q.pid == pid2) = false := by
          by_contra hcon
          have hqp2 : (q.pid == pid2) = true := by simpa using hcon
          have hqp : q = p :=
            pid_inj hnd hq (findP_some hf).1
              (by rw [beq_iff_eq.mp hqp2, (findP_some hf).2])
          rw [hqp, hap] at hqs
          exact absurd hqs (by decide)
        have hpidneq : (pid2 == id) = false := by
          refine beq_eq_false_iff_ne.mpr ?_
          intro he
          have hqne : q.pid ≠ pid2 := beq_eq_false_iff_ne.mp hqneq
          exact hqne (by rw [hqid, he])
        have hfilter : ∀ st, List.filter (fun ex => ex.proposal_id == id)
            [(⟨pid2, st, some ("exec:" ++ pid2), some n, some n⟩ : Execution)] = [] := by
          intro st
          simp [List.filter, hpidneq]
        cases s with
        | true =>
          rw [specExec_success hf hap]
          refine ⟨⟨?_, ?_⟩, ?_⟩
          · show ((updAt pid2 (execUpd n) db.proposals).map Proposal.pid).Nodup
            rw [updAt_pids pid2 (execUpd n) (fun r2 => rfl)]
            exact hnd
          · have helem : (if q.pid == pid2 then execUpd n q else q) = q := by
              simp [hqneq]
            have hmem : (if q.pid == pid2 then execUpd n q else q) ∈
                updAt pid2 (execUpd n) db.proposals := mem_updAt_of_mem hq
            rw [helem] at hmem
            exact ⟨q, hmem, hqid, hqs⟩
          · show List.filter _ (db.executions ++ _) = _
            rw [List.filter_append, hfilter, List.append_nil]
            rfl
        | false =>
          rw [specExec_failure hf hap]
          refine ⟨⟨hnd, q, hq, hqid, hqs⟩, ?_⟩
          show List.filter _ (db.executions ++ _) = _
          rw [List.filter_append, hfilter, List.append_nil]
          rfl
      · rw [specExec_notApproved hf hap]
        exact ⟨⟨hnd, q, hq, hqid, hqs⟩, rfl⟩
  | ingestE s o e pl n =>
    show RejInv id (eventsPOST db s o e pl).db ∧
      execsFor (eventsPOST db s o e pl).db id = execsFor db id
    unfold eventsPOST
    by_cases hv : (isFalsy s || isFalsy o || isFalsy pl) = true
    · simp only [hv, if_true]
      exact ⟨⟨hnd, q, hq, hqid, hqs⟩, trivial⟩
    · have hv2 : (isFalsy s || isFalsy o || isFalsy pl) = false := by simpa using hv
      simp only [hv2, Bool.false_eq_true, if_false]
      exact ⟨⟨hnd, q, hq, hqid, hqs⟩, rfl⟩

lemma rejInv_run {id : String} : ∀ (ops : List Op) (db : Sys), RejInv id db →
    RejInv id (run db ops) ∧ execsFor (run db ops) id = execsFor db id := by
  intro ops
  induction ops with
  | nil =>
    intro db h
    exact ⟨h, rfl⟩
  | cons op ops ih =>
    intro db h
    obtain ⟨h2, he⟩ := rejInv_step h op
    obtain ⟨h3, he2⟩ := ih (step db op) h2
    exact ⟨h3, he2.trans he⟩

/-- C8: rejecting a pending proposal with a reason succeeds, sets the
status to `rejected` and stores the supplied reason, creates no Execution
row, and no later sequence of operations ever records an Execution for
that proposal. -/
theorem c8_reject_terminal_no_execution (db : Sys) (id : String)
    (p : Proposal) (reason : String) (ap : Option String) (ops : List Op)
    (hnd : (db.proposals.map Proposal.pid).Nodup)
    (hfind : findP db.proposals id = some p)
    (hp : p.status = "pending" ∨ p.status = "pending_approval")
    (hr : reason ≠ "") :
    (rejectPOST db id (some reason) ap).resp = .ok ∧
    findP (rejectPOST db id (some reason) ap).db.proposals id =
      some { p with status := "rejected", rejection_reason := some reason,
                    approver_id := some (orFalsy ap "founder") } ∧
    (rejectPOST db id (some reason) ap).db.executions = db.executions ∧
    execsFor (run (rejectPOST db id (some reason) ap).db ops) id =
      execsFor db id := by
  rw [rejectPOST_pending hfind hp]
  have hmr : orFalsy (some reason) "No reason provided" = reason := by
    simp [orFalsy, hr]
  refine ⟨rfl, ?_, rfl, ?_⟩
  · have hf2 := findP_updAt_self (rejectUpd (some reason) ap) (fun q2 => rfl) hfind
    rw [hf2]
    unfold rejectUpd
    rw [hmr]
  · have hppid := findP_some hfind
    have hrej : RejInv id
        { db with proposals := updAt id (rejectUpd (some reason) ap) db.proposals } := by
      refine ⟨?_, ?_⟩
      · show ((updAt id (rejectUpd (some reason) ap) db.proposals).map Proposal.pid).Nodup
        rw [updAt_pids id (rejectUpd (some reason) ap) (fun q2 => rfl)]
        exact hnd
      · have hw : (p.pid == id) = true := beq_iff_eq.mpr hppid.2
        have hmem : (if p.pid == id then rejectUpd (some reason) ap p else p) ∈
            updAt id (rejectUpd (some reason) ap) db.proposals :=
          mem_updAt_of_mem hppid.1
        rw [if_pos hw] at hmem
        exact ⟨rejectUpd (some reason) ap p, hmem, hppid.2, rfl⟩
    exact (rejInv_run ops _ hrej).2

/-- Witness for `c8_reject_terminal_no_execution` on a concrete store,
including a later approve and execute attempt against the rejected id. -/
theorem c8_reject_terminal_no_execution_witness :
    ((c8db.proposals.map Proposal.pid).Nodup ∧
      findP c8db.proposals "p1" = some c8p ∧
      (c8p.status = "pending" ∨ c8p.status = "pending_approval") ∧
      ("false positive" : String) ≠ "") ∧
    ((rejectPOST c8db "p1" (some "false positive") none).resp = .ok ∧
     findP (rejectPOST c8db "p1" (some "false positive") none).db.proposals "p1" =
       some { c8p with status := "rejected",
                       rejection_reason := some "false positive",
                       approver_id := some (orFalsy none "founder") } ∧
     (rejectPOST c8db "p1" (some "false positive") none).db.executions =
       c8db.executions ∧
     execsFor (run (rejectPOST c8db "p1" (some "false positive") none).db c8ops)
       "p1" = execsFor c8db "p1") :=
  ⟨⟨by decide, by decide, by decide, by decide⟩,
   c8_reject_terminal_no_execution c8db "p1" c8p "false positive" none c8ops
     (by decide) (by decide) (by decide) (by decide)⟩

end ExecOps
